import Mathlib

/-!
Shallow embedding of the circular-geometry and adaptive time-scale engine of
the `wilson` repository (files `planets_plot_longitude.py`,
`plot_aspects_distance.py`, `plot_trine_distance_multi_wide.py`).

Python floats are modelled as rationals; the Python `%` operator with a
positive right operand is modelled as `qmod x m = x - m * ⌊x / m⌋`, which is
exactly the value Python computes (sign follows the divisor).
-/

namespace Wilson

/-- Python `x % m` for a positive modulus `m`: the representative of `x`
modulo `m` lying in `[0, m)`. -/
def qmod (x m : ℚ) : ℚ := x - m * ⌊x / m⌋

/-- `wrap360(x)` from `plot_aspects_distance.py` line 76 and
`plot_trine_distance_multi_wide.py` line 61: `float(x) % 360.0`. -/
def wrap360 (x : ℚ) : ℚ := qmod x 360

/-- The signed-delta formula `(a - b + 180.0) % 360.0 - 180.0` inlined in
`nearest_distance` (`plot_aspects_distance.py` line 82) and in
`nearest_trine_abs` (`plot_trine_distance_multi_wide.py` lines 65-66);
the spec names it `signed_delta`. -/
def signed_delta (a b : ℚ) : ℚ := qmod (a - b + 180) 360 - 180

/-- `nearest_distance(delta_deg, targets)` from `plot_aspects_distance.py`
lines 78-85: start from the sentinel `best = 999.0` and scan the targets,
keeping the smaller of `best` and `abs((delta - t + 180) % 360 - 180)`. -/
def nearest_distance (delta : ℚ) (targets : List ℚ) : ℚ :=
  targets.foldl
    (fun best t =>
      let d := qmod (delta - t + 180) 360 - 180
      let ad := |d|
      if ad < best then ad else best)
    999

theorem qmod_nonneg (x : ℚ) {m : ℚ} (hm : 0 < m) : 0 ≤ qmod x m := by
  have h : (⌊x / m⌋ : ℚ) ≤ x / m := Int.floor_le (x / m)
  have h2 : (⌊x / m⌋ : ℚ) * m ≤ x / m * m := mul_le_mul_of_nonneg_right h hm.le
  rw [div_mul_cancel₀ x (ne_of_gt hm)] at h2
  simp only [qmod]
  nlinarith

theorem qmod_lt (x : ℚ) {m : ℚ} (hm : 0 < m) : qmod x m < m := by
  have h : x / m < ⌊x / m⌋ + 1 := Int.lt_floor_add_one (x / m)
  have h2 : x / m * m < ((⌊x / m⌋ : ℚ) + 1) * m := by
    exact mul_lt_mul_of_pos_right h hm
  rw [div_mul_cancel₀ x (ne_of_gt hm)] at h2
  simp only [qmod]
  nlinarith

theorem signed_delta_lb (a b : ℚ) : -180 ≤ signed_delta a b := by
  have h := qmod_nonneg (a - b + 180) (show (0:ℚ) < 360 by norm_num)
  simp only [signed_delta]
  linarith

theorem signed_delta_ub (a b : ℚ) : signed_delta a b < 180 := by
  have h := qmod_lt (a - b + 180) (show (0:ℚ) < 360 by norm_num)
  simp only [signed_delta]
  linarith

theorem abs_signed_delta_le (a b : ℚ) : |signed_delta a b| ≤ 180 :=
  abs_le.mpr ⟨signed_delta_lb a b, (signed_delta_ub a b).le⟩

/-- C7: For every real input x, including negatives, wrap(x) = x mod 360
satisfies 0 ≤ wrap(x) < 360. -/
theorem wrap360_range (x : ℚ) : 0 ≤ wrap360 x ∧ wrap360 x < 360 :=
  ⟨qmod_nonneg x (by norm_num), qmod_lt x (by norm_num)⟩

/-- C1 counterexample: at a = 180, b = 0 the signed delta is exactly −180,
which does not lie in the half-open interval (−180, 180]. -/
theorem signed_delta_not_Ioc : signed_delta 180 0 = -180 ∧ ¬ (-180 < signed_delta 180 0) := by
  have h : signed_delta 180 0 = -180 := by
    simp only [signed_delta, qmod]
    norm_num
  exact ⟨h, by rw [h]; exact lt_irrefl _⟩

/-- C1 (amended): for every pair of rational angles a and b, the signed delta
computed as ((a − b + 180) mod 360) − 180 lies in the half-open interval
[−180, 180). -/
theorem signed_delta_range (a b : ℚ) : -180 ≤ signed_delta a b ∧ signed_delta a b < 180 :=
  ⟨signed_delta_lb a b, signed_delta_ub a b⟩

/-- The loop body of `nearest_distance` keeps the minimum of the running
best and the unsigned signed-delta distance to the current target. -/
theorem nearest_foldl_eq_min (delta : ℚ) : ∀ (ts : List ℚ) (b : ℚ),
    ts.foldl
      (fun best t =>
        let d := qmod (delta - t + 180) 360 - 180
        let ad := |d|
        if ad < best then ad else best) b
      = ts.foldl (fun best t => min best |signed_delta delta t|) b := by
  intro ts
  induction ts with
  | nil => intro b; rfl
  | cons x xs ih =>
    intro b
    simp only [List.foldl_cons, ih]
    congr 1
    by_cases h : |signed_delta delta x| < b
    · simp only [signed_delta] at h ⊢
      rw [if_pos h, min_eq_right h.le]
    · simp only [signed_delta] at h ⊢
      rw [if_neg h, min_eq_left (not_lt.mp h)]

theorem foldl_min_le_init (f : ℚ → ℚ) :
    ∀ (ts : List ℚ) (b : ℚ), ts.foldl (fun x t => min x (f t)) b ≤ b := by
  intro ts
  induction ts with
  | nil => intro b; exact le_refl b
  | cons x xs ih =>
    intro b
    calc (x :: xs).foldl (fun x t => min x (f t)) b
        = xs.foldl (fun x t => min x (f t)) (min b (f x)) := rfl
      _ ≤ min b (f x) := ih _
      _ ≤ b := min_le_left _ _

theorem foldl_min_le_mem (f : ℚ → ℚ) :
    ∀ (ts : List ℚ) (b : ℚ), ∀ t ∈ ts, ts.foldl (fun x t => min x (f t)) b ≤ f t := by
  intro ts
  induction ts with
  | nil => intro b t ht; exact absurd ht (List.not_mem_nil t)
  | cons x xs ih =>
    intro b t ht
    rcases List.mem_cons.mp ht with h | h
    · subst h
      calc (t :: xs).foldl (fun x t => min x (f t)) b
          = xs.foldl (fun x t => min x (f t)) (min b (f t)) := rfl
        _ ≤ min b (f t) := foldl_min_le_init f xs _
        _ ≤ f t := min_le_right _ _
    · exact ih (min b (f x)) t h

theorem foldl_min_attained (f : ℚ → ℚ) :
    ∀ (ts : List ℚ) (b : ℚ),
      ts.foldl (fun x t => min x (f t)) b = b ∨
        ∃ t ∈ ts, ts.foldl (fun x t => min x (f t)) b = f t := by
  intro ts
  induction ts with
  | nil => intro b; exact Or.inl rfl
  | cons x xs ih =>
    intro b
    rcases ih (min b (f x)) with h | ⟨t, ht, h⟩
    · rcases min_choice b (f x) with hm | hm
      · exact Or.inl (by rw [List.foldl_cons, h, hm])
      · exact Or.inr ⟨x, List.mem_cons_self x xs, by rw [List.foldl_cons, h, hm]⟩
    · exact Or.inr ⟨t, List.mem_cons_of_mem x ht, by rw [List.foldl_cons, h]⟩

theorem nearest_distance_le_abs (delta : ℚ) (targets : List ℚ) :
    ∀ t ∈ targets, nearest_distance delta targets ≤ |signed_delta delta t| := by
  intro t ht
  rw [nearest_distance, nearest_foldl_eq_min]
  exact foldl_min_le_mem _ targets 999 t ht

theorem nearest_distance_le_180 (delta : ℚ) (targets : List ℚ) (h : targets ≠ []) :
    nearest_distance delta targets ≤ 180 := by
  obtain ⟨t, ts, rfl⟩ := List.exists_cons_of_ne_nil h
  exact le_trans (nearest_distance_le_abs delta _ t (List.mem_cons_self t ts))
    (abs_signed_delta_le delta t)

theorem nearest_distance_attained (delta : ℚ) (targets : List ℚ) (h : targets ≠ []) :
    ∃ t ∈ targets, nearest_distance delta targets = |signed_delta delta t| := by
  have hle := nearest_distance_le_180 delta targets h
  rw [nearest_distance, nearest_foldl_eq_min] at hle ⊢
  rcases foldl_min_attained (fun t => |signed_delta delta t|) targets 999 with h9 | hat
  · rw [h9] at hle; norm_num at hle
  · exact hat

/-- C3: for every delta and every non-empty target list,
nearest_distance(delta, targets) equals the minimum over t in targets of
|signed_delta(delta, t)| (it is attained at some target and is a lower bound
for all targets — never an average or sum), and the six concrete values from
the spec hold. -/
theorem nearest_distance_min_spec (delta : ℚ) (targets : List ℚ) (h : targets ≠ []) :
    ((∃ t ∈ targets, nearest_distance delta targets = |signed_delta delta t|) ∧
      ∀ t ∈ targets, nearest_distance delta targets ≤ |signed_delta delta t|) ∧
    nearest_distance 0 [120, 240] = 120 ∧
    nearest_distance 120 [120, 240] = 0 ∧
    nearest_distance 180 [120, 240] = 60 ∧
    nearest_distance 0 [0] = 0 ∧
    nearest_distance 179 [0] = 179 ∧
    nearest_distance 181 [0] = 179 := by
  refine ⟨⟨nearest_distance_attained delta targets h, nearest_distance_le_abs delta targets⟩,
    ?_, ?_, ?_, ?_, ?_, ?_⟩
  all_goals simp only [nearest_distance, List.foldl, qmod]
  all_goals norm_num

theorem nearest_distance_min_spec_witness : nearest_distance 0 [120, 240] = 120 :=
  (nearest_distance_min_spec 0 [0] (List.cons_ne_nil 0 [])).2.1

/-- C10: nearest_distance is total even on an empty target list, where it
returns the sentinel 999.0; on any non-empty target list the result is at
most 180, so the sentinel is unreachable under the documented precondition. -/
theorem nearest_distance_total (delta : ℚ) (targets : List ℚ) :
    nearest_distance delta [] = 999 ∧
    (targets ≠ [] → nearest_distance delta targets ≤ 180) :=
  ⟨rfl, fun h => nearest_distance_le_180 delta targets h⟩

theorem nearest_distance_total_witness :
    nearest_distance 0 [] = 999 ∧ nearest_distance 0 [0] ≤ 180 :=
  ⟨(nearest_distance_total 0 [0]).1, (nearest_distance_total 0 [0]).2 (List.cons_ne_nil 0 [])⟩

/-- Helper loop of `break_on_wrap` (`planets_plot_longitude.py` lines 80-90):
the Python generator keeps a `start` index and yields the slice
`lons[start:i]` whenever `abs(lons[i] - lons[i-1]) > threshold`, then yields
the final slice `lons[start:]`.  Here the pending slice is carried as the
reversed accumulator `cur` and `prev` is the previously seen sample
`lons[i-1]`. -/
def break_go (threshold : ℚ) (prev : ℚ) (cur : List ℚ) : List ℚ → List (List ℚ)
  | [] => [cur.reverse]
  | x :: xs =>
    if |x - prev| > threshold then cur.reverse :: break_go threshold x [x] xs
    else break_go threshold x (x :: cur) xs

/-- `break_on_wrap` (`planets_plot_longitude.py` lines 80-90) restricted to
the angle column: an empty input yields no segments, otherwise the scan
starts with the first sample pending. -/
def break_on_wrap (threshold : ℚ) : List ℚ → List (List ℚ)
  | [] => []
  | x :: xs => break_go threshold x [x] xs

theorem head?_append_left {α : Type} (l l' : List α) (h : l ≠ []) :
    (l ++ l').head? = l.head? := by
  cases l with
  | nil => exact absurd rfl h
  | cons a as => rfl

theorem break_go_flatten (t : ℚ) : ∀ (rest : List ℚ) (prev : ℚ) (cur : List ℚ),
    (break_go t prev cur rest).flatten = cur.reverse ++ rest := by
  intro rest
  induction rest with
  | nil => intro prev cur; simp [break_go]
  | cons x xs ih =>
    intro prev cur
    by_cases h : |x - prev| > t
    · simp [break_go, h, ih]
    · simp [break_go, h, ih]

/-- Structural invariant of the segmenter loop: provided the pending
accumulator is non-empty, starts with `prev` (the last sample consumed) and
is a valid segment in reverse, every emitted segment is non-empty, every
emitted segment has all consecutive raw differences ≤ threshold, adjacent
segments are separated by a raw difference > threshold, and the first
emitted segment begins with the oldest pending sample. -/
theorem break_go_spec (t : ℚ) : ∀ (rest : List ℚ) (prev : ℚ) (cur : List ℚ),
    cur ≠ [] → cur.head? = some prev →
    cur.reverse.Chain' (fun a b => |b - a| ≤ t) →
    (∀ s ∈ break_go t prev cur rest, s ≠ []) ∧
    (∀ s ∈ break_go t prev cur rest, s.Chain' (fun a b => |b - a| ≤ t)) ∧
    (break_go t prev cur rest).Chain'
      (fun s1 s2 => ∀ a b, s1.getLast? = some a → s2.head? = some b → |b - a| > t) ∧
    (∀ s ss, break_go t prev cur rest = s :: ss → s.head? = cur.reverse.head?) := by
  intro rest
  induction rest with
  | nil =>
    intro prev cur hne _hhd hch
    refine ⟨?_, ?_, ?_, ?_⟩
    · intro s hs
      rw [break_go, List.mem_singleton] at hs
      subst hs
      simpa using hne
    · intro s hs
      rw [break_go, List.mem_singleton] at hs
      subst hs
      exact hch
    · exact List.chain'_singleton _
    · intro s ss hss
      rw [break_go] at hss
      injection hss with h1 _
      rw [h1]
  | cons x xs ih =>
    intro prev cur hne hhd hch
    by_cases h : |x - prev| > t
    · -- wrap detected: emit the pending segment, restart from x
      obtain ⟨ih1, ih2, ih3, ih4⟩ := ih x [x] (List.cons_ne_nil x []) rfl (by simp)
      have hout : break_go t prev cur (x :: xs) = cur.reverse :: break_go t x [x] xs := by
        rw [break_go, if_pos h]
      refine ⟨?_, ?_, ?_, ?_⟩
      · intro s hs
        rw [hout, List.mem_cons] at hs
        rcases hs with hs | hs
        · subst hs; simpa using hne
        · exact ih1 s hs
      · intro s hs
        rw [hout, List.mem_cons] at hs
        rcases hs with hs | hs
        · subst hs; exact hch
        · exact ih2 s hs
      · rw [hout, List.chain'_cons']
        refine ⟨?_, ih3⟩
        intro s hs a b ha hb
        -- the next run of segments starts with a segment whose head is x
        cases hG : break_go t x [x] xs with
        | nil => rw [hG] at hs; simp at hs
        | cons s0 ss0 =>
          have hseq : s = s0 := by
            rw [hG] at hs
            exact (by simpa using hs : s0 = s).symm
          have hhx : s.head? = some x := by
            rw [hseq]
            simpa using ih4 s0 ss0 hG
          rw [hhx] at hb
          injection hb with hb
          have ha2 : cur.reverse.getLast? = some prev := by
            rw [List.getLast?_reverse, hhd]
          rw [ha2] at ha
          injection ha with ha
          rw [← hb, ← ha]
          exact h
      · intro s ss hss
        rw [hout] at hss
        injection hss with h1 _
        rw [h1]
    · -- no wrap: extend the pending segment with x
      push_neg at h
      have hchain2 : (x :: cur).reverse.Chain' (fun a b => |b - a| ≤ t) := by
        rw [List.reverse_cons, List.chain'_append]
        refine ⟨hch, List.chain'_singleton x, ?_⟩
        intro a ha b hb
        rw [List.getLast?_reverse, hhd] at ha
        injection ha with ha
        subst ha
        simp only [List.head?_cons, Option.mem_def, Option.some.injEq] at hb
        subst hb
        exact h
      obtain ⟨ih1, ih2, ih3, ih4⟩ := ih x (x :: cur) (List.cons_ne_nil x cur) rfl hchain2
      have hout : break_go t prev cur (x :: xs) = break_go t x (x :: cur) xs := by
        rw [break_go, if_neg (not_lt.mpr h)]
      refine ⟨?_, ?_, ?_, ?_⟩
      · intro s hs; rw [hout] at hs; exact ih1 s hs
      · intro s hs; rw [hout] at hs; exact ih2 s hs
      · rw [hout]; exact ih3
      · intro s ss hss
        rw [hout] at hss
        have := ih4 s ss hss
        rw [this, List.reverse_cons,
          head?_append_left cur.reverse [x] (by simpa using hne)]

/-- C2: break_on_wrap yields segments whose concatenation is exactly the
input in order (no sample dropped or reordered); segments are non-empty,
consecutive samples inside a segment differ (raw, non-circular) by at most
the 180° threshold, and a new segment starts precisely where the raw
difference exceeds 180°; the empty sequence yields zero segments,
[10,20,350,355] yields [10,20] and [350,355], and [10,20,30] yields one
segment of length 3. -/
theorem break_on_wrap_spec (l : List ℚ) :
    (break_on_wrap 180 l).flatten = l ∧
    (∀ s ∈ break_on_wrap 180 l, s ≠ []) ∧
    (∀ s ∈ break_on_wrap 180 l, s.Chain' (fun a b => |b - a| ≤ 180)) ∧
    (break_on_wrap 180 l).Chain'
      (fun s1 s2 => ∀ a b, s1.getLast? = some a → s2.head? = some b → |b - a| > 180) ∧
    break_on_wrap 180 ([] : List ℚ) = [] ∧
    break_on_wrap 180 [10, 20, 350, 355] = [[10, 20], [350, 355]] ∧
    break_on_wrap 180 [10, 20, 30] = [[10, 20, 30]] := by
  have hmain : (break_on_wrap 180 l).flatten = l ∧
      (∀ s ∈ break_on_wrap 180 l, s ≠ []) ∧
      (∀ s ∈ break_on_wrap 180 l, s.Chain' (fun a b => |b - a| ≤ 180)) ∧
      (break_on_wrap 180 l).Chain'
        (fun s1 s2 => ∀ a b, s1.getLast? = some a → s2.head? = some b → |b - a| > 180) := by
    cases l with
    | nil => simp [break_on_wrap]
    | cons x xs =>
      obtain ⟨h1, h2, h3, _⟩ :=
        break_go_spec 180 xs x [x] (List.cons_ne_nil x []) rfl (by simp)
      exact ⟨by rw [break_on_wrap, break_go_flatten]; simp, h1, h2, h3⟩
  refine ⟨hmain.1, hmain.2.1, hmain.2.2.1, hmain.2.2.2, rfl, ?_, ?_⟩
  · norm_num [break_on_wrap, break_go]
  · norm_num [break_on_wrap, break_go]

/-- Calendar date as used by `parse_file` / `parse_csv` and the time-axis
planner (only year and month matter to `month_count`). -/
structure Date where
  year : ℤ
  month : ℤ
  day : ℤ
  deriving DecidableEq

/-- `month_count(start, end)` from `plot_aspects_distance.py` lines 88-89. -/
def month_count (start e : Date) : ℤ :=
  (e.year - start.year) * 12 + (e.month - start.month) + 1

/-- Major-tick rule of a time-axis tier: `mdates.MonthLocator(interval=n)`
or `mdates.YearLocator(base=n)`. -/
inductive MajorTick
  | monthInterval (n : ℕ)
  | yearBase (n : ℕ)
  deriving DecidableEq

/-- Minor-tick rule of a time-axis tier: `mdates.WeekdayLocator(byweekday=MO)`,
`mdates.MonthLocator(interval=n)` or `mdates.YearLocator(base=n)`. -/
inductive MinorTick
  | weekdayMonday
  | monthInterval (n : ℕ)
  | yearBase (n : ℕ)
  deriving DecidableEq

/-- Label date-format of a time-axis tier: the `mdates.DateFormatter`
patterns used in `setup_time_axis`. -/
inductive LabelFmt
  /-- `'%d %b %Y'` -/
  | dayMonthYear
  /-- `'%b %Y'` -/
  | monthYear
  /-- `'%Y'` -/
  | yearOnly
  deriving DecidableEq

structure TimeAxisPlan where
  major : MajorTick
  minor : MinorTick
  fmt : LabelFmt
  deriving DecidableEq

/-- The tier cascade of `setup_time_axis` (`plot_aspects_distance.py`
lines 129-171), as a function of the month span. -/
def tier_for (months : ℤ) : TimeAxisPlan :=
  if months ≤ 12 then ⟨.monthInterval 1, .weekdayMonday, .dayMonthYear⟩
  else if months ≤ 36 then ⟨.monthInterval 1, .monthInterval 1, .monthYear⟩
  else if months ≤ 120 then ⟨.monthInterval 3, .monthInterval 1, .monthYear⟩
  else if months ≤ 240 then ⟨.yearBase 1, .monthInterval 3, .yearOnly⟩
  else if months ≤ 480 then ⟨.yearBase 2, .yearBase 1, .yearOnly⟩
  else if months ≤ 1200 then ⟨.yearBase 5, .yearBase 1, .yearOnly⟩
  else ⟨.yearBase 10, .yearBase 1, .yearOnly⟩

/-- `setup_time_axis` (`plot_aspects_distance.py` lines 98-176) restricted to
its locator/formatter selection: it computes `month_count` of the index
endpoints and picks the tier. -/
def setup_time_axis (start e : Date) : TimeAxisPlan :=
  tier_for (month_count start e)

/-- C4: with the span in whole months defined as
(end.year − start.year)*12 + (end.month − start.month) + 1, tier boundaries
are inclusive: a 12-month span selects the ≤12 tier (monthly majors,
Monday-weekly minors, day+month+year labels), 13 months the ≤36 tier,
120 months the ≤120 tier (3-month majors), 121 months the ≤240 tier
(yearly majors). -/
theorem setup_time_axis_tiers (start e : Date) :
    (month_count start e = 12 →
      setup_time_axis start e = ⟨.monthInterval 1, .weekdayMonday, .dayMonthYear⟩) ∧
    (month_count start e = 13 →
      setup_time_axis start e = ⟨.monthInterval 1, .monthInterval 1, .monthYear⟩) ∧
    (month_count start e = 120 →
      setup_time_axis start e = ⟨.monthInterval 3, .monthInterval 1, .monthYear⟩) ∧
    (month_count start e = 121 →
      setup_time_axis start e = ⟨.yearBase 1, .monthInterval 3, .yearOnly⟩) := by
  refine ⟨fun h => ?_, fun h => ?_, fun h => ?_, fun h => ?_⟩
  all_goals rw [setup_time_axis, h, tier_for]
  all_goals norm_num

theorem setup_time_axis_tiers_witness :
    setup_time_axis ⟨2024, 1, 1⟩ ⟨2024, 12, 31⟩
        = ⟨.monthInterval 1, .weekdayMonday, .dayMonthYear⟩ ∧
    setup_time_axis ⟨2024, 1, 1⟩ ⟨2025, 1, 31⟩
        = ⟨.monthInterval 1, .monthInterval 1, .monthYear⟩ ∧
    setup_time_axis ⟨2024, 1, 1⟩ ⟨2033, 12, 31⟩
        = ⟨.monthInterval 3, .monthInterval 1, .monthYear⟩ ∧
    setup_time_axis ⟨2024, 1, 1⟩ ⟨2034, 1, 31⟩
        = ⟨.yearBase 1, .monthInterval 3, .yearOnly⟩ :=
  ⟨(setup_time_axis_tiers ⟨2024, 1, 1⟩ ⟨2024, 12, 31⟩).1 (by decide),
   (setup_time_axis_tiers ⟨2024, 1, 1⟩ ⟨2025, 1, 31⟩).2.1 (by decide),
   (setup_time_axis_tiers ⟨2024, 1, 1⟩ ⟨2033, 12, 31⟩).2.2.1 (by decide),
   (setup_time_axis_tiers ⟨2024, 1, 1⟩ ⟨2034, 1, 31⟩).2.2.2 (by decide)⟩

/-- `snap_bounds(min_deg, max_deg)` from `planets_plot_longitude.py`
lines 113-118: pad by 2°, round outward to multiples of 5°, clip to
[0, 360], and replace a collapsed band by `lo + 5` before the upper clip. -/
def snap_bounds (min_deg max_deg : ℚ) : ℚ × ℚ :=
  let lo : ℚ := (⌊(min_deg - 2) / 5⌋ : ℚ) * 5
  let hi : ℚ := (⌈(max_deg + 2) / 5⌉ : ℚ) * 5
  let lo2 : ℚ := max 0 lo
  let hi2 : ℚ := min 360 (if lo2 < hi then hi else lo2 + 5)
  (lo2, hi2)

/-- C5: for observed bounds 0 ≤ min ≤ max < 360, snap_bounds pads by 2° and
rounds the lower bound down / upper bound up to multiples of 5° (clipped to
0 below and 360 above), the collapse guard never has to fire, the visible
band is always at least 5°, and snap_bounds(3, 47) = (0, 50). -/
theorem snap_bounds_spec (mn mx : ℚ) (h0 : 0 ≤ mn) (h1 : mn ≤ mx) (h2 : mx < 360) :
    (snap_bounds mn mx).1 = max 0 ((⌊(mn - 2) / 5⌋ : ℚ) * 5) ∧
    (snap_bounds mn mx).2 = min 360 ((⌈(mx + 2) / 5⌉ : ℚ) * 5) ∧
    0 ≤ (snap_bounds mn mx).1 ∧
    (snap_bounds mn mx).2 ≤ 360 ∧
    (snap_bounds mn mx).1 + 5 ≤ (snap_bounds mn mx).2 ∧
    snap_bounds 3 47 = (0, 50) := by
  have hL : (⌊(mn - 2) / 5⌋ : ℚ) * 5 ≤ mn - 2 := by
    have h := mul_le_mul_of_nonneg_right (Int.floor_le ((mn - 2) / 5))
      (by norm_num : (0:ℚ) ≤ 5)
    rwa [div_mul_cancel₀ _ (by norm_num : (5:ℚ) ≠ 0)] at h
  have hH : mx + 2 ≤ (⌈(mx + 2) / 5⌉ : ℚ) * 5 := by
    have h := mul_le_mul_of_nonneg_right (Int.le_ceil ((mx + 2) / 5))
      (by norm_num : (0:ℚ) ≤ 5)
    rwa [div_mul_cancel₀ _ (by norm_num : (5:ℚ) ≠ 0)] at h
  have hLH : (⌊(mn - 2) / 5⌋ : ℚ) + 1 ≤ (⌈(mx + 2) / 5⌉ : ℚ) := by
    have hlt : ⌊(mn - 2) / 5⌋ < ⌈(mx + 2) / 5⌉ := by
      have : (⌊(mn - 2) / 5⌋ : ℚ) < (⌈(mx + 2) / 5⌉ : ℚ) := by nlinarith
      exact_mod_cast this
    exact_mod_cast hlt
  have hHpos : (1 : ℚ) ≤ (⌈(mx + 2) / 5⌉ : ℚ) := by
    have : 0 < ⌈(mx + 2) / 5⌉ :=
      Int.ceil_pos.mpr (div_pos (by linarith) (by norm_num))
    exact_mod_cast this
  have hL71 : (⌊(mn - 2) / 5⌋ : ℚ) ≤ 71 := by
    have hdiv : (mn - 2) / 5 ≤ (358 : ℚ) / 5 := by
      gcongr
      linarith
    have hmono : ⌊(mn - 2) / 5⌋ ≤ (71 : ℤ) := by
      rw [show (71 : ℤ) = ⌊(358 : ℚ) / 5⌋ by norm_num]
      exact Int.floor_le_floor hdiv
    exact_mod_cast hmono
  have key1 : max 0 ((⌊(mn - 2) / 5⌋ : ℚ) * 5) + 5 ≤ (⌈(mx + 2) / 5⌉ : ℚ) * 5 := by
    rcases le_or_lt ((⌊(mn - 2) / 5⌋ : ℚ) * 5) 0 with hc | hc
    · rw [max_eq_left hc]
      nlinarith
    · rw [max_eq_right hc.le]
      nlinarith
  have key2 : max 0 ((⌊(mn - 2) / 5⌋ : ℚ) * 5) ≤ 355 :=
    max_le (by norm_num) (by nlinarith)
  have hbranch : max 0 ((⌊(mn - 2) / 5⌋ : ℚ) * 5) < (⌈(mx + 2) / 5⌉ : ℚ) * 5 := by
    linarith
  have hsnd : (snap_bounds mn mx).2
      = min 360 (if max 0 ((⌊(mn - 2) / 5⌋ : ℚ) * 5) < (⌈(mx + 2) / 5⌉ : ℚ) * 5
          then (⌈(mx + 2) / 5⌉ : ℚ) * 5
          else max 0 ((⌊(mn - 2) / 5⌋ : ℚ) * 5) + 5) := rfl
  rw [if_pos hbranch] at hsnd
  have hfst : (snap_bounds mn mx).1 = max 0 ((⌊(mn - 2) / 5⌋ : ℚ) * 5) := rfl
  refine ⟨rfl, hsnd, le_max_left 0 _, ?_, ?_, ?_⟩
  · rw [hsnd]
    exact min_le_left _ _
  · rw [hfst, hsnd]
    exact le_min (by linarith) key1
  · have hc : ⌈(49 : ℚ) / 5⌉ = 10 := by
      rw [Int.ceil_eq_iff]
      norm_num
    have hf : ⌊(1 : ℚ) / 5⌋ = 0 := by
      rw [Int.floor_eq_iff]
      norm_num
    norm_num [snap_bounds, hc, hf]

theorem snap_bounds_spec_witness : snap_bounds 3 47 = (0, 50) :=
  (snap_bounds_spec 3 47 (by norm_num) (by norm_num) (by norm_num)).2.2.2.2.2

/-- Canonical record built from one input line: `(date, planet, lon_deg)`
with the longitude already folded into [0, 360). -/
structure Sample where
  date : Date
  planet : String
  lon_deg : ℚ
  deriving DecidableEq

/-- Row construction of the strict comma-delimited branch
(`planets_plot_longitude.py` lines 71-75; identical in `parse_csv`,
`plot_aspects_distance.py` lines 66-70): the two-digit/three-digit year
pivot `if y < 1000: y += 2000 if y < 80 else 1900`, then
`lon = float(...) % 360.0`. -/
def strict_row (d mo y : ℤ) (planet : String) (lon : ℚ) : Sample :=
  let y2 := if y < 1000 then (if y < 80 then y + 2000 else y + 1900) else y
  ⟨⟨y2, mo, d⟩, planet, wrap360 lon⟩

/-- Row construction of the whitespace-delimited fallback branch
(`planets_plot_longitude.py` lines 62-66): the same year pivot and the same
`% 360.0` reduction. -/
def fallback_row (d mo y : ℤ) (planet : String) (lon : ℚ) : Sample :=
  let y2 := if y < 1000 then (if y < 80 then y + 2000 else y + 1900) else y
  ⟨⟨y2, mo, d⟩, planet, wrap360 lon⟩

/-- C6: for every accepted line whose year value y has two digits
(0 ≤ y < 100), the produced Sample's year is 2000+y when y < 80 and 1900+y
when 80 ≤ y < 100, in both the strict comma-delimited shape and the
whitespace-delimited fallback shape. -/
theorem two_digit_year_pivot (d mo y : ℤ) (planet : String) (lon : ℚ)
    (hy0 : 0 ≤ y) (hy : y < 100) :
    (strict_row d mo y planet lon).date.year
        = (if y < 80 then 2000 + y else 1900 + y) ∧
    (fallback_row d mo y planet lon).date.year
        = (if y < 80 then 2000 + y else 1900 + y) := by
  constructor
  all_goals
    simp only [strict_row, fallback_row]
    rw [if_pos (by linarith : y < 1000)]
    by_cases h : y < 80
    · rw [if_pos h, if_pos h]
      ring
    · rw [if_neg h, if_neg h]
      ring

theorem two_digit_year_pivot_witness :
    (strict_row 1 1 24 "Sun" 123).date.year = 2024 ∧
    (fallback_row 1 1 85 "Sun" 123).date.year = 1985 :=
  ⟨by
    have h := (two_digit_year_pivot 1 1 24 "Sun" 123 (by norm_num) (by norm_num)).1
    rw [h]
    norm_num,
   by
    have h := (two_digit_year_pivot 1 1 85 "Sun" 123 (by norm_num) (by norm_num)).2
    rw [h]
    norm_num⟩

/-- Match outcome of one raw input line in `parse_file`
(`planets_plot_longitude.py` lines 56-75): either the strict regex `RE_ROW`
matched and captured the five fields, or it failed but the whitespace
fallback (lines 59-69) produced the fields, or neither shape matched and the
line is skipped.  Neither match records calendar validity: that is checked
only later, by the `dt.datetime(y, mo, d)` constructor. -/
inductive Line
  | strict (d mo y : ℤ) (planet : String) (lon : ℚ)
  | fallback (d mo y : ℤ) (planet : String) (lon : ℚ)
  | malformed

/-- Gregorian leap-year rule used by `datetime.datetime`. -/
def leap_year (y : ℤ) : Bool :=
  (y % 4 == 0 && y % 100 != 0) || y % 400 == 0

def days_in_month (y mo : ℤ) : ℤ :=
  if mo = 2 then (if leap_year y then 29 else 28)
  else if mo = 4 ∨ mo = 6 ∨ mo = 9 ∨ mo = 11 then 30
  else 31

/-- Acceptance domain of the `datetime.datetime(y, mo, d)` constructor
(MINYEAR = 1, MAXYEAR = 9999): outside it the constructor raises a
ValueError. -/
def valid_date (y mo d : ℤ) : Bool :=
  decide (1 ≤ y) && decide (y ≤ 9999) &&
  decide (1 ≤ mo) && decide (mo ≤ 12) &&
  decide (1 ≤ d) && decide (d ≤ days_in_month y mo)

/-- Outcome of processing one matched-or-not line inside the ingestion
loop. -/
inductive LineResult
  /-- a row `(dt.datetime(y, mo, d), planet, lon)` was appended -/
  | row (s : Sample)
  /-- the line was dropped without effect -/
  | skip
  /-- `dt.datetime(y, mo, d)` raised an uncaught ValueError -/
  | crash (y mo d : ℤ)

/-- Per-line step of `parse_file`.  The strict branch
(`planets_plot_longitude.py` lines 71-75, and identically `parse_csv` in
`plot_aspects_distance.py` lines 66-70) builds its row with a bare
`dt.datetime(y, mo, d)` call protected by no try/except, so a
calendar-invalid date crashes the whole run; the fallback branch
(lines 61-69) runs entirely inside `try: ... except Exception: pass`, so
there an invalid date merely skips the line. -/
def parse_line : Line → LineResult
  | .strict d mo y p l =>
    let s := strict_row d mo y p l
    if valid_date s.date.year mo d then .row s else .crash s.date.year mo d
  | .fallback d mo y p l =>
    let s := fallback_row d mo y p l
    if valid_date s.date.year mo d then .row s else .skip
  | .malformed => .skip

/-- Error outcomes of ingestion: the uncaught ValueError escaping from
`dt.datetime` in the strict branch, or the zero-rows error raised at
`planets_plot_longitude.py` lines 76-77. -/
inductive IngestError
  | invalidDate (y mo d : ℤ)
  | noData (msg : String)
  deriving DecidableEq

/-- Comparison used by `sort_values(['planet', 'date'])`: lexicographic on
planet name, then the date. -/
def sample_le (a b : Sample) : Bool :=
  if a.planet = b.planet then
    if a.date.year = b.date.year then
      if a.date.month = b.date.month then decide (a.date.day ≤ b.date.day)
      else decide (a.date.month ≤ b.date.month)
    else decide (a.date.year ≤ b.date.year)
  else decide (a.planet < b.planet)

/-- Row-accumulation loop of `parse_file` (`planets_plot_longitude.py`
lines 54-75): lines are processed in order, a skipped line contributes
nothing, and a crash aborts the whole run. -/
def collect_rows : List Line → Except IngestError (List Sample)
  | [] => Except.ok []
  | l :: ls =>
    match parse_line l with
    | .crash y mo d => Except.error (IngestError.invalidDate y mo d)
    | .row s => (collect_rows ls).map (fun rest => s :: rest)
    | .skip => collect_rows ls

/-- `parse_file` (`planets_plot_longitude.py` lines 53-78) at the level of
pre-matched lines: accumulate the rows (any uncaught datetime error
escapes), raise the no-data error when no row was produced, otherwise
return the rows sorted by (planet, date). -/
def parse_file (lines : List Line) : Except IngestError (List Sample) :=
  match collect_rows lines with
  | Except.error e => Except.error e
  | Except.ok rows =>
    if rows.isEmpty then
      Except.error (IngestError.noData
        "No rows parsed. Use -fTPl (and -g,) with European date format (-b1.1.YYYY).")
    else
      Except.ok (rows.mergeSort sample_le)

/-- C9 (refuting the claim as stated): ingestion is not always lenient per
line.  On the input lines `"1.1.2024, Sun, 10"`, `"31.2.2024, Moon, 20"`
(both matched by the strict regex) the bare `dt.datetime(2024, 2, 31)` call
raises an uncaught ValueError for the calendar-invalid 31 February,
aborting ingestion and discarding the Sample already parsed from the first
line — although that first line alone ingests fine — so a malformed line
is not silently skipped, the remaining Samples are not returned, and the
zero-rows NoDataError is not the only hard failure. -/
theorem parse_file_crash_on_invalid_date :
    parse_file [Line.strict 1 1 2024 "Sun" 10, Line.strict 31 2 2024 "Moon" 20]
      = Except.error (IngestError.invalidDate 2024 2 31) ∧
    parse_line (Line.strict 1 1 2024 "Sun" 10)
      = LineResult.row (strict_row 1 1 2024 "Sun" 10) ∧
    parse_file [Line.strict 1 1 2024 "Sun" 10]
      = Except.ok [strict_row 1 1 2024 "Sun" 10] := by
  refine ⟨rfl, rfl, ?_⟩
  simp only [parse_file]
  rw [show collect_rows [Line.strict 1 1 2024 "Sun" 10]
      = Except.ok [strict_row 1 1 2024 "Sun" 10] from rfl]
  simp [List.mergeSort_singleton]

/-- The fixed sign list (`planets_plot_longitude.py` lines 46-47). -/
def SIGNS : List String :=
  ["Aries", "Taurus", "Gemini", "Cancer", "Leo", "Virgo",
   "Libra", "Scorpio", "Sagittarius", "Capricorn", "Aquarius", "Pisces"]

/-- `sign_name_at(deg)` (`planets_plot_longitude.py` lines 92-95):
`SIGNS[int((deg % 360) // 30)]`.  The index is always within 0..11 for an
argument in [0, 360), so the out-of-range default is never reached. -/
def sign_name_at (deg : ℚ) : String :=
  let d := wrap360 deg
  SIGNS.getD (⌊d / 30⌋).toNat ""

/-- Python 3 `round` on a float: round half to even. -/
def py_round (q : ℚ) : ℤ :=
  let f := ⌊q⌋
  if q - f < 1/2 then f
  else if 1/2 < q - f then f + 1
  else if 2 ∣ f then f else f + 1

/-- `degrees_only_label(deg)` (`planets_plot_longitude.py` lines 97-102):
`dd = int(round(deg % 30.0))`, `dd = 0` when it equals 30, then the
two-digit zero-padded degree label. -/
def degrees_only_label (deg : ℚ) : String :=
  let d := qmod deg 30
  let dd := py_round d
  let dd2 := if dd = 30 then 0 else dd
  (if dd2 < 10 then "0" ++ toString dd2 else toString dd2) ++ "°"

/-- The formatter closure returned by `clean_zodiac_formatter`
(`planets_plot_longitude.py` lines 104-111): sign name when `y % 30` is
within 0.001 of 0 or of 30, degree label otherwise. -/
def clean_zodiac_fmt (y : ℚ) : String :=
  if |qmod y 30| < 1/1000 ∨ |qmod y 30 - 30| < 1/1000 then sign_name_at y
  else degrees_only_label y

/-- The formatter's branch test is exactly "within 0.001° of a multiple of
30°". -/
theorem near_multiple_iff (y : ℚ) :
    (|qmod y 30| < 1/1000 ∨ |qmod y 30 - 30| < 1/1000)
      ↔ ∃ k : ℤ, |y - 30 * (k : ℚ)| < 1/1000 := by
  have hr0 : 0 ≤ qmod y 30 := qmod_nonneg y (by norm_num)
  have hr30 : qmod y 30 < 30 := qmod_lt y (by norm_num)
  constructor
  · rintro (h | h)
    · exact ⟨⌊y / 30⌋, by simpa [qmod] using h⟩
    · refine ⟨⌊y / 30⌋ + 1, ?_⟩
      have he : y - 30 * ((⌊y / 30⌋ : ℚ) + 1) = qmod y 30 - 30 := by
        simp [qmod]
        ring
      push_cast
      rw [he]
      exact h
  · rintro ⟨k, hk⟩
    set r := y - 30 * (k : ℚ) with hr
    have hy : y / 30 = (k : ℚ) + r / 30 := by
      rw [hr]
      ring
    have habs := abs_lt.mp hk
    rcases le_or_lt 0 r with hrpos | hrneg
    · have hfr : ⌊r / 30⌋ = 0 := by
        rw [Int.floor_eq_iff]
        constructor
        · simpa using div_nonneg hrpos (by norm_num : (0:ℚ) ≤ 30)
        · have h1 : r < 30 := by linarith [habs.2]
          have := (div_lt_one (by norm_num : (0:ℚ) < 30)).mpr h1
          push_cast
          linarith
      have hfl : ⌊y / 30⌋ = k := by
        rw [hy, Int.floor_int_add, hfr, add_zero]
      left
      have hq : qmod y 30 = r := by
        rw [qmod, hfl, hr]
      rw [hq]
      exact hk
    · have hfr : ⌊r / 30⌋ = -1 := by
        rw [Int.floor_eq_iff]
        constructor
        · push_cast
          rw [le_div_iff₀ (by norm_num : (0:ℚ) < 30)]
          linarith [habs.1]
        · push_cast
          have := div_neg_of_neg_of_pos hrneg (by norm_num : (0:ℚ) < 30)
          linarith
      have hfl : ⌊y / 30⌋ = k - 1 := by
        rw [hy, Int.floor_int_add, hfr]
        ring
      right
      have hq : qmod y 30 - 30 = r := by
        rw [qmod, hfl]
        push_cast
        rw [hr]
        ring
      rw [hq]
      exact hk

theorem qmod_sub_mul_int (x m : ℚ) (n : ℤ) (hm : m ≠ 0) :
    qmod (x - m * n) m = qmod x m := by
  have h : (x - m * n) / m = x / m - n := by
    field_simp
  rw [qmod, h, Int.floor_sub_int, qmod]
  push_cast
  ring

/-- C8: the formatter renders the sign name exactly at tick values within
0.001° of a multiple of 30° and the in-sign degree label everywhere else;
the in-sign offset `y % 30` agrees with `wrap(y) % 30`; and the concrete
spec values hold: sign_name_at(30) = "Taurus",
sign_name_at(29.9999) = "Aries", degrees_only_label(30) = "00°". -/
theorem clean_zodiac_formatter_spec (y : ℚ) :
    ((∃ k : ℤ, |y - 30 * (k : ℚ)| < 1/1000) → clean_zodiac_fmt y = sign_name_at y) ∧
    ((∀ k : ℤ, 1/1000 ≤ |y - 30 * (k : ℚ)|) → clean_zodiac_fmt y = degrees_only_label y) ∧
    qmod (wrap360 y) 30 = qmod y 30 ∧
    sign_name_at 30 = "Taurus" ∧
    sign_name_at (299999 / 10000) = "Aries" ∧
    degrees_only_label 30 = "00°" := by
  refine ⟨?_, ?_, ?_, ?_, ?_, ?_⟩
  · intro h
    rw [clean_zodiac_fmt, if_pos ((near_multiple_iff y).mpr h)]
  · intro h
    rw [clean_zodiac_fmt, if_neg ?_]
    intro hc
    obtain ⟨k, hk⟩ := (near_multiple_iff y).mp hc
    exact absurd hk (not_lt.mpr (h k))
  · have hw : wrap360 y = y - 30 * ((12 * ⌊y / 360⌋ : ℤ) : ℚ) := by
      rw [wrap360, qmod]
      push_cast
      ring
    rw [hw, qmod_sub_mul_int y 30 _ (by norm_num)]
  · have h1 : ⌊(30:ℚ)/360⌋ = 0 := by
      rw [Int.floor_eq_iff]
      norm_num
    have h2 : ⌊(30:ℚ)/30⌋ = 1 := by
      rw [Int.floor_eq_iff]
      norm_num
    simp [sign_name_at, wrap360, qmod, h1, h2, SIGNS]
  · have h1 : ⌊(299999/10000:ℚ)/360⌋ = 0 := by
      rw [Int.floor_eq_iff]
      norm_num
    have h2 : ⌊(299999/10000:ℚ)/30⌋ = 0 := by
      rw [Int.floor_eq_iff]
      norm_num
    simp [sign_name_at, wrap360, qmod, h1, h2, SIGNS]
  · have h1 : ⌊(30:ℚ)/30⌋ = 1 := by
      rw [Int.floor_eq_iff]
      norm_num
    simp [degrees_only_label, qmod, py_round, h1]
    rfl

theorem clean_zodiac_formatter_spec_witness :
    clean_zodiac_fmt 30 = sign_name_at 30 ∧ clean_zodiac_fmt 7 = degrees_only_label 7 := by
  constructor
  · exact (clean_zodiac_formatter_spec 30).1 ⟨1, by norm_num⟩
  · refine (clean_zodiac_formatter_spec 7).2.1 ?_
    intro k
    rcases le_or_lt k 0 with hk | hk
    · have hk2 : (k : ℚ) ≤ 0 := by exact_mod_cast hk
      have h : (1:ℚ)/1000 ≤ 7 - 30 * k := by linarith
      exact le_trans h (le_abs_self _)
    · have hk2 : (1 : ℚ) ≤ (k : ℚ) := by exact_mod_cast hk
      have h : (1:ℚ)/1000 ≤ -(7 - 30 * k) := by linarith
      exact le_trans h (neg_le_abs _)

end Wilson
